import Mathlib

/-!
Shallow embedding of the deadpool `postgres` and `lapin` adapter crates
(`src/postgres/src/lib.rs`, `src/lapin/src/lib.rs`).

Modelling conventions:
* Backend-side compiled statements are opaque handles (`Statement`), errors are
  opaque (`PgError`, `LapinError`).
* The backend connection's behaviour on `prepare` is an oracle
  `compile : String → Except PgError Statement`; other backend round-trips
  (begin / commit / rollback / the recycle probe) are passed in as their
  `Except` outcome.
* Rust `&mut self` methods become explicit state passing: a method returns its
  `Result` together with the post-state.
* `HashMap<String, Statement>` becomes an association list with
  replace-or-append insertion, matching `HashMap` lookup/insert/len semantics
  on the distinct-key states the code produces.
* `Transaction::commit`/`rollback` take `self` by value in Rust, so a
  finalized scope can never be used again (the move is rejected at compile
  time).  The embedding makes this typestate explicit: a `Transaction` carries
  `TxnState`, operations on a finalized scope return `invalidScopeState`.
-/

namespace Deadpool

/-- Opaque backend-compiled statement handle (`tokio_postgres::Statement`).
Cloning a handle yields the same handle value. -/
structure Statement where
  id : Nat
deriving DecidableEq, Repr

/-- Opaque backend error (`tokio_postgres::Error`). -/
structure PgError where
  code : Nat
deriving DecidableEq, Repr

/-- Lookup in the statement map, `HashMap::get` on a `String` key
(exact string match). -/
def mapGet (m : List (String × Statement)) (q : String) : Option Statement :=
  match m with
  | [] => none
  | (k, v) :: rest => if k = q then some v else mapGet rest q

/-- Insertion into the statement map, `HashMap::insert`: replace the binding
if the key is present, otherwise append it. -/
def mapInsert (m : List (String × Statement)) (q : String) (s : Statement) :
    List (String × Statement) :=
  match m with
  | [] => [(q, s)]
  | (k, v) :: rest =>
      if k = q then (q, s) :: rest else (k, v) :: mapInsert rest q s

/-- The key list of a statement map. -/
def mapKeys (m : List (String × Statement)) : List String :=
  m.map Prod.fst

/-- `StatementCache` from `src/postgres/src/lib.rs`: holds the cached
statements, keyed by query text. -/
structure StatementCache where
  map : List (String × Statement)
deriving DecidableEq, Repr

/-- `StatementCache::new()`: starts empty. -/
def StatementCache.new : StatementCache :=
  { map := [] }

/-- `StatementCache::size()`: current size of the cache (`map.len()`). -/
def StatementCache.size (c : StatementCache) : Nat :=
  c.map.length

/-- `StatementCache::clear()`: drop all entries (`map.clear()`). -/
def StatementCache.clear (_c : StatementCache) : StatementCache :=
  { map := [] }

/-- `Client` from `src/postgres/src/lib.rs`: wraps a connection plus its
statement cache.  The connection itself is represented by the `compile`
oracle passed to each operation, so only the cache is state. -/
structure Client where
  statement_cache : StatementCache
deriving DecidableEq, Repr

/-- `Client::new`: fresh wrapper with an empty statement cache. -/
def Client.new : Client :=
  { statement_cache := StatementCache.new }

/-- `Client::prepare`: look the query up in the cache; on a hit return a clone
of the stored statement, on a miss ask the backend (`compile`) to prepare it,
insert the result keyed by the query text (`?` propagates the error first),
and return it.  Returns the `Result` together with the post-state of the
client (`&mut self`). -/
def Client.prepare (compile : String → Except PgError Statement) (c : Client)
    (query : String) : Except PgError Statement × Client :=
  match mapGet c.statement_cache.map query with
  | some statement => (.ok statement, c)
  | none =>
      match compile query with
      | .error e => (.error e, c)
      | .ok stmt =>
          (.ok stmt,
           { statement_cache :=
               { map := mapInsert c.statement_cache.map query stmt } })

/-- Typestate of a transaction scope.  In Rust, `commit` and `rollback`
consume `self`, so `committed` and `rolledBack` are terminal: no further
operation can be performed on the scope. -/
inductive TxnState where
  | opened
  | committed
  | rolledBack
deriving DecidableEq, Repr

/-- Errors surfaced by transaction-scope operations: a backend error, or the
(statically enforced in Rust, explicit here) use of a finalized scope. -/
inductive TxnError where
  | pg (e : PgError)
  | invalidScopeState
deriving DecidableEq, Repr

/-- `Transaction` from `src/postgres/src/lib.rs`: wraps the backend
transaction and holds the parent client's statement cache by `&mut`
reference.  The embedding passes the cache by value into the scope and back
out when the borrow ends (`Client.afterScope`). -/
structure Transaction where
  txnState : TxnState
  statement_cache : StatementCache
deriving DecidableEq, Repr

/-- `Client::transaction`: begin a backend transaction (`beginResult` is the
outcome of `PgClient::transaction`); on success the returned scope borrows
the client's statement cache. -/
def Client.transaction (beginResult : Except PgError Unit) (c : Client) :
    Except PgError Transaction :=
  match beginResult with
  | .error e => .error e
  | .ok _ => .ok { txnState := .opened, statement_cache := c.statement_cache }

/-- End of the scope's `&mut` borrow: the parent client sees every cache
mutation made through the scope (the cache is the same instance, not a
copy). -/
def Client.afterScope (_c : Client) (t : Transaction) : Client :=
  { statement_cache := t.statement_cache }

/-- `Transaction::prepare`: identical algorithm to `Client::prepare`, acting
on the same statement cache; the backend compile goes through the
transaction (`self.txn.prepare`), modelled by the same `compile` oracle.
On a finalized scope the call is impossible in Rust (the scope was moved);
the embedding returns `invalidScopeState`. -/
def Transaction.prepare (compile : String → Except PgError Statement)
    (t : Transaction) (query : String) : Except TxnError Statement × Transaction :=
  match t.txnState with
  | .opened =>
      match mapGet t.statement_cache.map query with
      | some statement => (.ok statement, t)
      | none =>
          match compile query with
          | .error e => (.error (.pg e), t)
          | .ok stmt =>
              (.ok stmt,
               { t with statement_cache :=
                   { map := mapInsert t.statement_cache.map query stmt } })
  | _ => (.error .invalidScopeState, t)

/-- `Transaction::commit`: finalize the backend transaction
(`commitResult` is the backend outcome).  Consumes the scope: the
post-state is terminal even when the backend rejects the commit. -/
def Transaction.commit (commitResult : Except PgError Unit)
    (t : Transaction) : Except TxnError Unit × Transaction :=
  match t.txnState with
  | .opened =>
      (match commitResult with
       | .ok _ => .ok ()
       | .error e => .error (.pg e),
       { t with txnState := .committed })
  | _ => (.error .invalidScopeState, t)

/-- `Transaction::rollback`: finalize by discarding the transaction's data
effects; consumes the scope.  The statement cache is not touched. -/
def Transaction.rollback (rollbackResult : Except PgError Unit)
    (t : Transaction) : Except TxnError Unit × Transaction :=
  match t.txnState with
  | .opened =>
      (match rollbackResult with
       | .ok _ => .ok ()
       | .error e => .error (.pg e),
       { t with txnState := .rolledBack })
  | _ => (.error .invalidScopeState, t)

/-- Opaque lapin connection (`lapin::Connection`). -/
structure LapinConnection where
  id : Nat
deriving DecidableEq, Repr

/-- Opaque lapin error (`lapin::Error`). -/
structure LapinError where
  code : Nat
deriving DecidableEq, Repr

/-- `Manager::recycle` from `src/lapin/src/lib.rs`: a deliberate no-op that
returns `Ok(())` unconditionally for every connection. -/
def lapinRecycle (_connection : LapinConnection) : Except LapinError Unit :=
  .ok ()

/-- `Manager::recycle` from `src/postgres/src/lib.rs`: issues the trivial
probe `client.simple_query("")` (its outcome, payload included, is
`probeResult`); returns `Ok(())` exactly when the probe succeeds and
propagates the probe's error otherwise. -/
def pgRecycle (probeResult : Except PgError Nat) : Except PgError Unit :=
  match probeResult with
  | .ok _ => .ok ()
  | .error e => .error e

/-- One client-visible cache operation: a cached prepare of a query text
issued on the client or inside a transaction scope, or a
`statement_cache.clear()`. -/
inductive CacheOp where
  | prep (q : String)
  | prepTxn (q : String)
  | clearOp
deriving DecidableEq, Repr

/-- Apply one cache operation to a client.  `prepTxn` opens a scope (begin
succeeding), prepares through it, and ends the borrow. -/
def applyOp (compile : String → Except PgError Statement) (c : Client) :
    CacheOp → Client
  | .prep q => (Client.prepare compile c q).2
  | .prepTxn q =>
      Client.afterScope c
        (Transaction.prepare compile
          { txnState := .opened, statement_cache := c.statement_cache } q).2
  | .clearOp => { statement_cache := c.statement_cache.clear }

/-- Run a sequence of cache operations from a given client state. -/
def runOps (compile : String → Except PgError Statement) (c : Client)
    (ops : List CacheOp) : Client :=
  ops.foldl (applyOp compile) c

/-- The suffix of an operation sequence after its most recent `clear`
(the whole sequence when it contains no `clear`). -/
def afterLastClear (ops : List CacheOp) : List CacheOp :=
  (ops.reverse.takeWhile (fun op => op ≠ CacheOp.clearOp)).reverse

/-- The query texts of the prepare operations in a sequence whose backend
compilation succeeds. -/
def successfulPreps (compile : String → Except PgError Statement)
    (ops : List CacheOp) : List String :=
  ops.filterMap (fun op =>
    match op with
    | .prep q => match compile q with | .ok _ => some q | .error _ => none
    | .prepTxn q => match compile q with | .ok _ => some q | .error _ => none
    | .clearOp => none)

/-- Embed a backend `prepare` outcome into the transaction error type:
`Transaction::prepare` surfaces the very same backend error. -/
def liftPgResult (r : Except PgError Statement) : Except TxnError Statement :=
  match r with
  | .ok s => .ok s
  | .error e => .error (.pg e)

/-- A sample backend compile oracle used to instantiate theorems on concrete
inputs: compiles `"a"` and `"b"`, fails on everything else. -/
def demoCompile : String → Except PgError Statement :=
  fun q => if q = "a" then .ok ⟨1⟩ else if q = "b" then .ok ⟨2⟩ else .error ⟨7⟩

/-- A sample client whose cache already holds `"a"`. -/
def demoClient : Client :=
  { statement_cache := { map := [("a", ⟨1⟩)] } }

theorem mapGet_eq_none_iff (m : List (String × Statement)) (q : String) :
    mapGet m q = none ↔ q ∉ mapKeys m := by
  induction m with
  | nil => simp [mapGet, mapKeys]
  | cons kv rest ih =>
    obtain ⟨k, v⟩ := kv
    by_cases h : k = q
    · subst h
      simp [mapGet, mapKeys]
    · simp [mapGet, mapKeys, h, Ne.symm h, ih]

theorem mapGet_mem_keys (m : List (String × Statement)) (q : String)
    (s : Statement) (h : mapGet m q = some s) : q ∈ mapKeys m := by
  by_contra hq
  rw [← mapGet_eq_none_iff] at hq
  simp [hq] at h

theorem mapInsert_keys_of_not_mem (m : List (String × Statement)) (q : String)
    (s : Statement) (h : q ∉ mapKeys m) :
    mapKeys (mapInsert m q s) = mapKeys m ++ [q] := by
  induction m with
  | nil => simp [mapInsert, mapKeys]
  | cons kv rest ih =>
    obtain ⟨k, v⟩ := kv
    simp only [mapKeys, List.map_cons, List.mem_cons, not_or] at h
    have ih' := ih h.2
    simp only [mapKeys] at ih' ⊢
    simp [mapInsert, Ne.symm h.1, ih']

theorem mapInsert_get_self (m : List (String × Statement)) (q : String)
    (s : Statement) : mapGet (mapInsert m q s) q = some s := by
  induction m with
  | nil => simp [mapInsert, mapGet]
  | cons kv rest ih =>
    obtain ⟨k, v⟩ := kv
    by_cases h : k = q
    · simp [mapInsert, mapGet, h]
    · simp [mapInsert, mapGet, h, ih]

theorem mapInsert_get_other (m : List (String × Statement)) (q : String)
    (s : Statement) (k : String) (h : k ≠ q) :
    mapGet (mapInsert m q s) k = mapGet m k := by
  induction m with
  | nil => simp [mapInsert, mapGet, Ne.symm h]
  | cons kv rest ih =>
    obtain ⟨k', v⟩ := kv
    by_cases h' : k' = q
    · subst h'
      simp [mapInsert, mapGet, Ne.symm h]
    · by_cases h'' : k' = k <;> simp [mapInsert, mapGet, h, h', h'', ih]

theorem mapKeys_length (m : List (String × Statement)) :
    (mapKeys m).length = m.length := by
  simp [mapKeys]

theorem mapInsert_length_of_not_mem (m : List (String × Statement))
    (q : String) (s : Statement) (h : q ∉ mapKeys m) :
    (mapInsert m q s).length = m.length + 1 := by
  have h1 := mapKeys_length (mapInsert m q s)
  rw [mapInsert_keys_of_not_mem m q s h] at h1
  simp only [List.length_append, List.length_singleton] at h1
  rw [← h1, mapKeys_length]

/-- Claim C1: for every client state and query where prepare succeeds,
preparing the same query twice with no intervening clear grows the cache
size by at most one after the first call and by exactly zero after the
second. -/
theorem prepare_twice_cache_growth
    (compile : String → Except PgError Statement) (c : Client) (q : String)
    (s₁ : Statement) (h : (Client.prepare compile c q).1 = .ok s₁) :
    (Client.prepare compile c q).2.statement_cache.size ≤
        c.statement_cache.size + 1 ∧
    (Client.prepare compile ((Client.prepare compile c q).2) q).2.statement_cache.size
      = (Client.prepare compile c q).2.statement_cache.size := by
  cases hget : mapGet c.statement_cache.map q with
  | some s =>
    simp [Client.prepare, hget, StatementCache.size]
  | none =>
    cases hcq : compile q with
    | error e => simp [Client.prepare, hget, hcq] at h
    | ok stmt =>
      have hq : q ∉ mapKeys c.statement_cache.map :=
        (mapGet_eq_none_iff _ _).mp hget
      have hlen := mapInsert_length_of_not_mem c.statement_cache.map q stmt hq
      have hself := mapInsert_get_self c.statement_cache.map q stmt
      simp [Client.prepare, hget, hcq, StatementCache.size, hlen, hself]

theorem prepare_twice_cache_growth_witness :
    (Client.prepare demoCompile Client.new "a").2.statement_cache.size ≤
        Client.new.statement_cache.size + 1 ∧
    (Client.prepare demoCompile
        ((Client.prepare demoCompile Client.new "a").2) "a").2.statement_cache.size
      = (Client.prepare demoCompile Client.new "a").2.statement_cache.size :=
  prepare_twice_cache_growth demoCompile Client.new "a" ⟨1⟩ rfl

/-- Claim C2: `Client::prepare` and `Transaction::prepare` follow the
get-or-compile algorithm: on an exact-string cache hit they return the
stored handle with the state unchanged (the backend is not consulted: the
result does not depend on `compile`); on a miss they return the backend's
outcome, inserting the compiled handle keyed by the exact query text on
success. -/
theorem prepare_follows_cache_algorithm
    (compile : String → Except PgError Statement) (c : Client)
    (t : Transaction) (q : String) (ht : t.txnState = .opened) :
    (∀ s, mapGet c.statement_cache.map q = some s →
        Client.prepare compile c q = (.ok s, c)) ∧
    (∀ e, mapGet c.statement_cache.map q = none → compile q = .error e →
        Client.prepare compile c q = (.error e, c)) ∧
    (∀ s, mapGet c.statement_cache.map q = none → compile q = .ok s →
        Client.prepare compile c q =
          (.ok s, { statement_cache :=
              { map := mapInsert c.statement_cache.map q s } })) ∧
    (∀ s, mapGet t.statement_cache.map q = some s →
        Transaction.prepare compile t q = (.ok s, t)) ∧
    (∀ e, mapGet t.statement_cache.map q = none → compile q = .error e →
        Transaction.prepare compile t q = (.error (.pg e), t)) ∧
    (∀ s, mapGet t.statement_cache.map q = none → compile q = .ok s →
        Transaction.prepare compile t q =
          (.ok s, { t with statement_cache :=
              { map := mapInsert t.statement_cache.map q s } })) := by
  obtain ⟨ts, tcache⟩ := t
  simp only [] at ht
  subst ht
  refine ⟨?_, ?_, ?_, ?_, ?_, ?_⟩ <;> intros <;>
    simp_all [Client.prepare, Transaction.prepare]

theorem prepare_follows_cache_algorithm_witness :
    Client.prepare demoCompile demoClient "a" = (.ok ⟨1⟩, demoClient) :=
  (prepare_follows_cache_algorithm demoCompile demoClient
      { txnState := .opened, statement_cache := demoClient.statement_cache }
      "a" rfl).1 ⟨1⟩ (by decide)

/-- Claim C4: when the backend compilation of an uncached query fails, both
`Client::prepare` and `Transaction::prepare` return that error to the
caller with the state (and so the statement cache) completely unchanged. -/
theorem prepare_error_atomic
    (compile : String → Except PgError Statement) (c : Client)
    (t : Transaction) (q : String) (e : PgError)
    (ht : t.txnState = .opened) (hcq : compile q = .error e) :
    (mapGet c.statement_cache.map q = none →
        Client.prepare compile c q = (.error e, c)) ∧
    (mapGet t.statement_cache.map q = none →
        Transaction.prepare compile t q = (.error (.pg e), t)) := by
  obtain ⟨ts, tcache⟩ := t
  simp only [] at ht
  subst ht
  constructor <;> intro hget <;>
    simp [Client.prepare, Transaction.prepare, hget, hcq]

theorem prepare_error_atomic_witness :
    Client.prepare demoCompile Client.new "z" = (.error ⟨7⟩, Client.new) :=
  (prepare_error_atomic demoCompile Client.new
      { txnState := .opened, statement_cache := Client.new.statement_cache }
      "z" ⟨7⟩ rfl rfl).1 (by decide)

/-- Claim C5: `statement_cache.clear()` empties the cache (`size` becomes
`0`), and a subsequent prepare of any query — cached before or not — is a
miss: the lookup fails and the call performs a fresh backend compile,
returning exactly the backend's outcome. -/
theorem clear_resets_cache
    (compile : String → Except PgError Statement) (c : Client) (q : String) :
    (c.statement_cache.clear).size = 0 ∧
    mapGet (c.statement_cache.clear).map q = none ∧
    (∀ e, compile q = .error e →
        Client.prepare compile { statement_cache := c.statement_cache.clear } q =
          (.error e, { statement_cache := c.statement_cache.clear })) ∧
    (∀ s, compile q = .ok s →
        Client.prepare compile { statement_cache := c.statement_cache.clear } q =
          (.ok s, { statement_cache := { map := [(q, s)] } })) :=
  ⟨rfl, rfl, fun e he => by
      simp [Client.prepare, StatementCache.clear, mapGet, he],
    fun s hs => by
      simp [Client.prepare, StatementCache.clear, mapGet, mapInsert, hs]⟩

theorem clear_resets_cache_witness :
    Client.prepare demoCompile
        { statement_cache := demoClient.statement_cache.clear } "a" =
      (.ok ⟨1⟩, { statement_cache := { map := [("a", ⟨1⟩)] } }) :=
  (clear_resets_cache demoCompile demoClient "a").2.2.2 ⟨1⟩ rfl

/-- Claim C6: `committed` and `rolledBack` are terminal scope states: every
operation on a finalized scope is rejected with `invalidScopeState` (in
Rust the move of `self` makes the call impossible outright), and in
particular a commit followed by a rollback on the same scope is rejected. -/
theorem finalized_scope_rejects_ops
    (compile : String → Except PgError Statement) (t : Transaction)
    (q : String) (r r' : Except PgError Unit)
    (h : t.txnState ≠ .opened) :
    (Transaction.prepare compile t q).1 = .error .invalidScopeState ∧
    (Transaction.commit r t).1 = .error .invalidScopeState ∧
    (Transaction.rollback r t).1 = .error .invalidScopeState ∧
    (∀ t0 : Transaction, t0.txnState = .opened →
        (Transaction.commit r t0).2.txnState = .committed ∧
        (Transaction.rollback r t0).2.txnState = .rolledBack ∧
        (Transaction.rollback r' (Transaction.commit r t0).2).1 =
          .error .invalidScopeState) := by
  obtain ⟨ts, tcache⟩ := t
  refine ⟨?_, ?_, ?_, ?_⟩
  · cases ts <;> simp_all [Transaction.prepare]
  · cases ts <;> simp_all [Transaction.commit]
  · cases ts <;> simp_all [Transaction.rollback]
  · intro t0 h0
    obtain ⟨ts0, tcache0⟩ := t0
    simp only [] at h0
    subst h0
    simp [Transaction.commit, Transaction.rollback]

theorem finalized_scope_rejects_ops_witness :
    (Transaction.prepare demoCompile
        { txnState := .committed, statement_cache := { map := [] } } "a").1 =
      .error .invalidScopeState ∧
    (Transaction.commit (.ok ())
        { txnState := .committed, statement_cache := { map := [] } }).1 =
      .error .invalidScopeState ∧
    (Transaction.rollback (.ok ())
        { txnState := .committed, statement_cache := { map := [] } }).1 =
      .error .invalidScopeState ∧
    (∀ t0 : Transaction, t0.txnState = .opened →
        (Transaction.commit (.ok ()) t0).2.txnState = .committed ∧
        (Transaction.rollback (.ok ()) t0).2.txnState = .rolledBack ∧
        (Transaction.rollback (.ok ())
            (Transaction.commit (.ok ()) t0).2).1 =
          .error .invalidScopeState) :=
  finalized_scope_rejects_ops demoCompile
    { txnState := .committed, statement_cache := { map := [] } } "a"
    (.ok ()) (.ok ()) (by decide)

/-- Claim C7: the lapin adapter's `recycle` is an unconditional no-op
success for every connection, while the postgres adapter's `recycle`
succeeds exactly when its trivial probe query succeeds and propagates the
probe's error otherwise. -/
theorem recycle_variants :
    (∀ connection : LapinConnection, lapinRecycle connection = .ok ()) ∧
    (∀ n : Nat, pgRecycle (.ok n) = .ok ()) ∧
    (∀ e : PgError, pgRecycle (.error e) = .error e) :=
  ⟨fun _ => rfl, fun _ => rfl, fun _ => rfl⟩

/-- Claim C3: preparing a fresh query inside a transaction scope and then
committing leaves the compiled handle in the parent client's statement
cache: the scope mutates the same cache, with no shadow copy. -/
theorem txn_prepare_commit_persists
    (compile : String → Except PgError Statement) (c : Client) (q : String)
    (beginR commitR : Except PgError Unit) (t : Transaction) (s : Statement)
    (hq : mapGet c.statement_cache.map q = none)
    (hb : Client.transaction beginR c = .ok t)
    (hp : (Transaction.prepare compile t q).1 = .ok s)
    (hcm : (Transaction.commit commitR
        (Transaction.prepare compile t q).2).1 = .ok ()) :
    mapGet (Client.afterScope c
        (Transaction.commit commitR
          (Transaction.prepare compile t q).2).2).statement_cache.map q
      = some s := by
  cases beginR with
  | error e => simp [Client.transaction] at hb
  | ok u =>
    simp only [Client.transaction, Except.ok.injEq] at hb
    subst hb
    cases hcq : compile q with
    | error e => simp [Transaction.prepare, hq, hcq] at hp
    | ok stmt =>
      have hps : stmt = s := by
        simpa [Transaction.prepare, hq, hcq] using hp
      subst hps
      simp [Transaction.prepare, hq, hcq, Transaction.commit,
        Client.afterScope, mapInsert_get_self]

theorem txn_prepare_commit_persists_witness :
    mapGet (Client.afterScope Client.new
        (Transaction.commit (.ok ())
          (Transaction.prepare demoCompile
            { txnState := .opened,
              statement_cache := Client.new.statement_cache } "a").2).2).statement_cache.map
        "a" = some ⟨1⟩ :=
  txn_prepare_commit_persists demoCompile Client.new "a" (.ok ()) (.ok ())
    { txnState := .opened, statement_cache := Client.new.statement_cache }
    ⟨1⟩ rfl rfl rfl rfl

/-- Claim C8: rollback leaves the statement cache untouched: after preparing
a fresh query inside a scope and rolling back, the parent client's cache
still holds the compiled handle for that query. -/
theorem txn_prepare_rollback_persists
    (compile : String → Except PgError Statement) (c : Client) (q : String)
    (beginR rollbackR : Except PgError Unit) (t : Transaction) (s : Statement)
    (hq : mapGet c.statement_cache.map q = none)
    (hb : Client.transaction beginR c = .ok t)
    (hp : (Transaction.prepare compile t q).1 = .ok s)
    (hrb : (Transaction.rollback rollbackR
        (Transaction.prepare compile t q).2).1 = .ok ()) :
    mapGet (Client.afterScope c
        (Transaction.rollback rollbackR
          (Transaction.prepare compile t q).2).2).statement_cache.map q
      = some s := by
  cases beginR with
  | error e => simp [Client.transaction] at hb
  | ok u =>
    simp only [Client.transaction, Except.ok.injEq] at hb
    subst hb
    cases hcq : compile q with
    | error e => simp [Transaction.prepare, hq, hcq] at hp
    | ok stmt =>
      have hps : stmt = s := by
        simpa [Transaction.prepare, hq, hcq] using hp
      subst hps
      simp [Transaction.prepare, hq, hcq, Transaction.rollback,
        Client.afterScope, mapInsert_get_self]

theorem txn_prepare_rollback_persists_witness :
    mapGet (Client.afterScope Client.new
        (Transaction.rollback (.ok ())
          (Transaction.prepare demoCompile
            { txnState := .opened,
              statement_cache := Client.new.statement_cache } "a").2).2).statement_cache.map
        "a" = some ⟨1⟩ :=
  txn_prepare_rollback_persists demoCompile Client.new "a" (.ok ()) (.ok ())
    { txnState := .opened, statement_cache := Client.new.statement_cache }
    ⟨1⟩ rfl rfl rfl rfl

/-- Claim C9: on an open scope sharing the parent's statement cache,
`Transaction::prepare` and `Client::prepare` are the same cache
transformation: given the same cache state, query, and backend outcome,
they return the same handle (or the same backend error) and leave the same
cache state behind. -/
theorem txn_client_prepare_equiv
    (compile : String → Except PgError Statement) (c : Client)
    (t : Transaction) (q : String)
    (ht : t.txnState = .opened)
    (hc : t.statement_cache = c.statement_cache) :
    (Transaction.prepare compile t q).1 =
        liftPgResult (Client.prepare compile c q).1 ∧
    (Transaction.prepare compile t q).2.statement_cache =
        (Client.prepare compile c q).2.statement_cache := by
  obtain ⟨ts, tcache⟩ := t
  simp only [] at ht hc
  subst ht
  subst hc
  cases hget : mapGet c.statement_cache.map q with
  | some s => simp [Transaction.prepare, Client.prepare, liftPgResult, hget]
  | none =>
    cases hcq : compile q with
    | error e =>
      simp [Transaction.prepare, Client.prepare, liftPgResult, hget, hcq]
    | ok stmt =>
      simp [Transaction.prepare, Client.prepare, liftPgResult, hget, hcq]

theorem txn_client_prepare_equiv_witness :
    (Transaction.prepare demoCompile
        { txnState := .opened,
          statement_cache := demoClient.statement_cache } "b").1 =
      liftPgResult (Client.prepare demoCompile demoClient "b").1 ∧
    (Transaction.prepare demoCompile
        { txnState := .opened,
          statement_cache := demoClient.statement_cache } "b").2.statement_cache =
      (Client.prepare demoCompile demoClient "b").2.statement_cache :=
  txn_client_prepare_equiv demoCompile demoClient
    { txnState := .opened, statement_cache := demoClient.statement_cache }
    "b" rfl rfl

theorem prepare_keys_nodup (compile : String → Except PgError Statement)
    (c : Client) (q : String)
    (h : (mapKeys c.statement_cache.map).Nodup) :
    (mapKeys ((Client.prepare compile c q).2).statement_cache.map).Nodup := by
  cases hget : mapGet c.statement_cache.map q with
  | some s => simpa [Client.prepare, hget] using h
  | none =>
    cases hcq : compile q with
    | error e => simpa [Client.prepare, hget, hcq] using h
    | ok stmt =>
      have hq := (mapGet_eq_none_iff _ _).mp hget
      rw [Client.prepare]
      simp only [hget, hcq]
      rw [mapInsert_keys_of_not_mem _ _ _ hq]
      simp [List.nodup_append, h, hq]

theorem prepare_keys_toFinset (compile : String → Except PgError Statement)
    (c : Client) (q : String) :
    (mapKeys ((Client.prepare compile c q).2).statement_cache.map).toFinset =
      (mapKeys c.statement_cache.map).toFinset ∪
        (match compile q with
         | .ok _ => {q}
         | .error _ => (∅ : Finset String)) := by
  cases hget : mapGet c.statement_cache.map q with
  | some s =>
    have hmem : q ∈ mapKeys c.statement_cache.map := mapGet_mem_keys _ _ _ hget
    cases hcq : compile q with
    | ok stmt =>
      simp only [Client.prepare, hget, hcq]
      exact (Finset.union_eq_left.mpr (by simpa using hmem)).symm
    | error e => simp [Client.prepare, hget, hcq]
  | none =>
    cases hcq : compile q with
    | error e => simp [Client.prepare, hget, hcq]
    | ok stmt =>
      have hq := (mapGet_eq_none_iff _ _).mp hget
      simp only [Client.prepare, hget, hcq]
      rw [mapInsert_keys_of_not_mem _ _ _ hq]
      simp [List.toFinset_append]

theorem applyOp_prepTxn_eq_prep (compile : String → Except PgError Statement)
    (c : Client) (q : String) :
    applyOp compile c (.prepTxn q) = applyOp compile c (.prep q) := by
  cases hget : mapGet c.statement_cache.map q with
  | some s =>
    simp [applyOp, Client.afterScope, Transaction.prepare, Client.prepare, hget]
  | none =>
    cases hcq : compile q with
    | error e =>
      simp [applyOp, Client.afterScope, Transaction.prepare, Client.prepare,
        hget, hcq]
    | ok stmt =>
      simp [applyOp, Client.afterScope, Transaction.prepare, Client.prepare,
        hget, hcq]

theorem afterLastClear_snoc_clear (ops : List CacheOp) :
    afterLastClear (ops ++ [CacheOp.clearOp]) = [] := by
  simp [afterLastClear, List.takeWhile]

theorem afterLastClear_snoc_of_ne (ops : List CacheOp) (op : CacheOp)
    (h : op ≠ CacheOp.clearOp) :
    afterLastClear (ops ++ [op]) = afterLastClear ops ++ [op] := by
  simp [afterLastClear, List.takeWhile, h]

theorem successfulPreps_append (compile : String → Except PgError Statement)
    (l₁ l₂ : List CacheOp) :
    successfulPreps compile (l₁ ++ l₂) =
      successfulPreps compile l₁ ++ successfulPreps compile l₂ := by
  simp [successfulPreps]

theorem runOps_keys_spec (compile : String → Except PgError Statement)
    (ops : List CacheOp) :
    (mapKeys (runOps compile Client.new ops).statement_cache.map).Nodup ∧
    (mapKeys (runOps compile Client.new ops).statement_cache.map).toFinset
      = (successfulPreps compile (afterLastClear ops)).toFinset := by
  induction ops using List.reverseRecOn with
  | nil =>
    simp [runOps, Client.new, StatementCache.new, mapKeys, afterLastClear,
      successfulPreps]
  | append_singleton l op ih =>
    obtain ⟨ihn, ihf⟩ := ih
    have hrun : runOps compile Client.new (l ++ [op]) =
        applyOp compile (runOps compile Client.new l) op := by
      simp [runOps]
    cases op with
    | clearOp =>
      rw [hrun, afterLastClear_snoc_clear]
      simp [applyOp, StatementCache.clear, mapKeys, successfulPreps]
    | prep q =>
      rw [hrun, afterLastClear_snoc_of_ne l _ (by simp)]
      refine ⟨prepare_keys_nodup compile _ q ihn, ?_⟩
      rw [show applyOp compile (runOps compile Client.new l) (CacheOp.prep q) =
            (Client.prepare compile (runOps compile Client.new l) q).2 from rfl,
        prepare_keys_toFinset compile _ q, ihf, successfulPreps_append]
      cases hcq : compile q <;>
        simp [successfulPreps, hcq, List.toFinset_append]
    | prepTxn q =>
      rw [hrun, applyOp_prepTxn_eq_prep, afterLastClear_snoc_of_ne l _ (by simp)]
      refine ⟨prepare_keys_nodup compile _ q ihn, ?_⟩
      rw [show applyOp compile (runOps compile Client.new l) (CacheOp.prep q) =
            (Client.prepare compile (runOps compile Client.new l) q).2 from rfl,
        prepare_keys_toFinset compile _ q, ihf, successfulPreps_append]
      cases hcq : compile q <;>
        simp [successfulPreps, hcq, List.toFinset_append]

theorem get_after_insert_step (m : List (String × Statement)) (q q' : String)
    (s stmt : Statement) (h : mapGet m q = some s)
    (hget : mapGet m q' = none) :
    mapGet (mapInsert m q' stmt) q = some s := by
  have hne : q ≠ q' := by
    rintro rfl
    simp [h] at hget
  rw [mapInsert_get_other _ _ _ _ hne]
  exact h

/-- Claim C10: the statement cache starts empty; prepare (through the client
or through an open scope) never removes or overwrites an existing entry;
and after any sequence of prepares and clears from `Client::new`, the cache
size equals the number of distinct query texts whose backend compilation
succeeds among the prepares since the most recent clear. -/
theorem statement_cache_invariant :
    Client.new.statement_cache.size = 0 ∧
    (∀ (compile : String → Except PgError Statement) (c : Client)
        (q q' : String) (s : Statement),
        mapGet c.statement_cache.map q = some s →
        mapGet ((Client.prepare compile c q').2).statement_cache.map q = some s) ∧
    (∀ (compile : String → Except PgError Statement) (t : Transaction)
        (q q' : String) (s : Statement),
        t.txnState = .opened →
        mapGet t.statement_cache.map q = some s →
        mapGet ((Transaction.prepare compile t q').2).statement_cache.map q
          = some s) ∧
    (∀ (compile : String → Except PgError Statement) (ops : List CacheOp),
        (runOps compile Client.new ops).statement_cache.size =
          ((successfulPreps compile (afterLastClear ops)).toFinset).card) := by
  refine ⟨rfl, ?_, ?_, ?_⟩
  · intro compile c q q' s h
    cases hget : mapGet c.statement_cache.map q' with
    | some _ => simpa [Client.prepare, hget] using h
    | none =>
      cases hcq : compile q' with
      | error e => simpa [Client.prepare, hget, hcq] using h
      | ok stmt =>
        simp only [Client.prepare, hget, hcq]
        exact get_after_insert_step _ _ _ _ _ h hget
  · intro compile t q q' s ht h
    obtain ⟨ts, tcache⟩ := t
    simp only [] at ht h
    subst ht
    cases hget : mapGet tcache.map q' with
    | some _ => simpa [Transaction.prepare, hget] using h
    | none =>
      cases hcq : compile q' with
      | error e => simpa [Transaction.prepare, hget, hcq] using h
      | ok stmt =>
        simp only [Transaction.prepare, hget, hcq]
        exact get_after_insert_step _ _ _ _ _ h hget
  · intro compile ops
    obtain ⟨hn, hf⟩ := runOps_keys_spec compile ops
    calc (runOps compile Client.new ops).statement_cache.size
        = (mapKeys (runOps compile Client.new ops).statement_cache.map).length :=
          (mapKeys_length _).symm
      _ = (mapKeys (runOps compile Client.new ops).statement_cache.map).toFinset.card :=
          (List.toFinset_card_of_nodup hn).symm
      _ = ((successfulPreps compile (afterLastClear ops)).toFinset).card := by
          rw [hf]

theorem statement_cache_invariant_witness :
    mapGet ((Client.prepare demoCompile demoClient "b").2).statement_cache.map
        "a" = some ⟨1⟩ ∧
    mapGet ((Transaction.prepare demoCompile
        { txnState := .opened,
          statement_cache := demoClient.statement_cache } "b").2).statement_cache.map
        "a" = some ⟨1⟩ :=
  ⟨statement_cache_invariant.2.1 demoCompile demoClient "a" "b" ⟨1⟩ rfl,
    statement_cache_invariant.2.2.1 demoCompile
      { txnState := .opened, statement_cache := demoClient.statement_cache }
      "a" "b" ⟨1⟩ rfl rfl⟩

end Deadpool
